import Mathlib

/-!
Shallow embedding of the Leviathan STT/TTS overlay subsystem
(`src/cli.py`, `src/overlay/server.py`, `src/overlay/gamestate_store.py`,
`src/overlay/state.py`) for checking the natural-language specification.

Files that hold JSON are modelled at the level of parsed JSON values:
a file read is `FileContent` (absent / malformed / a parsed value), a
log file is a list of per-line parse outcomes (`none` = the line does
not parse as JSON).  JSON numbers are modelled as integers: no claim
depends on non-integral numeric values.
-/

namespace Leviathan

/-- A JSON value as Python's `json.loads` produces it (numbers as `Int`,
see the file comment). `null` also stands for Python `None`. -/
inductive Json where
  | null
  | bool (b : Bool)
  | num  (n : Int)
  | str  (s : String)
  | arr  (elems : List Json)
  | obj  (fields : List (String × Json))
  deriving Repr

mutual

/-- Structural equality of JSON values, as Python `==` on parsed JSON. -/
def Json.beq : Json → Json → Bool
  | .null, .null => true
  | .bool a, .bool b => a == b
  | .num a, .num b => a == b
  | .str a, .str b => a == b
  | .arr as, .arr bs => Json.beqList as bs
  | .obj as, .obj bs => Json.beqFields as bs
  | _, _ => false

def Json.beqList : List Json → List Json → Bool
  | [], [] => true
  | a :: as, b :: bs => Json.beq a b && Json.beqList as bs
  | _, _ => false

def Json.beqFields : List (String × Json) → List (String × Json) → Bool
  | [], [] => true
  | (ka, va) :: as, (kb, vb) :: bs =>
      ka == kb && Json.beq va vb && Json.beqFields as bs
  | _, _ => false

end

theorem Json.beqList_iff (as bs : List Json)
    (ih : ∀ a ∈ as, ∀ b, Json.beq a b = true ↔ a = b) :
    Json.beqList as bs = true ↔ as = bs := by
  induction as generalizing bs with
  | nil => cases bs <;> simp [Json.beqList]
  | cons a as tl_ih =>
    cases bs with
    | nil => simp [Json.beqList]
    | cons b bs =>
      have ha : Json.beq a b = true ↔ a = b := ih a (by simp) b
      have htl : Json.beqList as bs = true ↔ as = bs :=
        tl_ih bs (fun x hx b => ih x (by simp [hx]) b)
      simp [Json.beqList, ha, htl]

theorem Json.beqFields_iff (as bs : List (String × Json))
    (ih : ∀ p ∈ as, ∀ b, Json.beq p.2 b = true ↔ p.2 = b) :
    Json.beqFields as bs = true ↔ as = bs := by
  induction as generalizing bs with
  | nil => cases bs <;> simp [Json.beqFields]
  | cons a as tl_ih =>
    obtain ⟨ka, va⟩ := a
    cases bs with
    | nil => simp [Json.beqFields]
    | cons b bs =>
      obtain ⟨kb, vb⟩ := b
      have ha : Json.beq va vb = true ↔ va = vb := ih (ka, va) (by simp) vb
      have htl : Json.beqFields as bs = true ↔ as = bs :=
        tl_ih bs (fun x hx b => ih x (by simp [hx]) b)
      simp [Json.beqFields, ha, htl, and_assoc]

theorem Json.beq_iff_aux :
    ∀ n (a b : Json), sizeOf a ≤ n → (Json.beq a b = true ↔ a = b) := by
  intro n
  induction n with
  | zero =>
    intro a b h
    exfalso
    cases a <;> simp at h
  | succ n ih =>
    intro a b h
    cases a with
    | null => cases b <;> simp [Json.beq]
    | bool x => cases b <;> simp [Json.beq]
    | num x => cases b <;> simp [Json.beq]
    | str x => cases b <;> simp [Json.beq]
    | arr as =>
      cases b <;> simp only [Json.beq] <;> try simp
      case arr bs =>
        have hsz : sizeOf as ≤ n := by simp at h; omega
        have := Json.beqList_iff as bs (fun a ha b =>
          ih a b (by have := List.sizeOf_lt_of_mem ha; omega))
        simpa using this
    | obj as =>
      cases b <;> simp only [Json.beq] <;> try simp
      case obj bs =>
        have hsz : sizeOf as ≤ n := by simp at h; omega
        have := Json.beqFields_iff as bs (fun p hp b =>
          ih p.2 b (by
            have h1 := List.sizeOf_lt_of_mem hp
            have h2 : sizeOf p.2 < sizeOf p := by
              obtain ⟨k, v⟩ := p; simp; try omega
            omega))
        simpa using this

theorem Json.beq_iff (a b : Json) : Json.beq a b = true ↔ a = b :=
  Json.beq_iff_aux (sizeOf a) a b le_rfl

instance : DecidableEq Json :=
  fun a b => decidable_of_iff _ (Json.beq_iff a b)

/-- Python truthiness of a JSON value: `None`, `False`, `0`, `""`, `[]`,
`{}` are falsy, everything else truthy. -/
def Json.truthy : Json → Bool
  | .null => false
  | .bool b => b
  | .num n => n != 0
  | .str s => s != ""
  | .arr elems => !elems.isEmpty
  | .obj fields => !fields.isEmpty

/-- First binding of a key in an object's field list (Python dicts have
unique keys; lookup takes the first match). -/
def Json.lookup (k : String) : List (String × Json) → Option Json
  | [] => none
  | (k', v) :: rest => if k' = k then some v else Json.lookup k rest

/-- `d.get(k)` on a Python dict: `none` when the key is missing (Python
returns `None`; a present JSON `null` and a missing key are both Python
`None`, which `Json.getd` below folds together). On a non-dict receiver
`.get` does not exist; the callers modelled here only apply it to dicts. -/
def Json.get? : Json → String → Option Json
  | .obj fields, k => Json.lookup k fields
  | _, _ => none

/-- `d.get(k)` with the Python-`None` result represented as `Json.null`. -/
def Json.getd (j : Json) (k : String) : Json :=
  (j.get? k).getD .null

/-- `d.get(k, default)` on a Python dict. -/
def Json.getD (j : Json) (k : String) (default : Json) : Json :=
  (j.get? k).getD default

/-- Whether a JSON value is an object (`isinstance(x, dict)`). -/
def Json.isObj : Json → Bool
  | .obj _ => true
  | _ => false

end Leviathan

namespace Leviathan

/-- Outcome of parsing one line of a text file: `none` when `json.loads`
raises, `some j` when the line parses to the JSON value `j`. -/
abbrev LineParse := Option Json

/-- A log file on disk: `none` = the file does not exist; `some lines` =
the file's lines, each as its parse outcome. -/
abbrev LogFile := Option (List LineParse)

/-- `read_gamestate_log` (src/overlay/gamestate_store.py:29-44): missing
file gives `[]`; otherwise each line is parsed independently inside its
own `try`, lines that fail to parse or do not parse to a dict are
skipped, and parsed dict lines are appended in file order. -/
def read_gamestate_log (file : LogFile) : List Json :=
  match file with
  | none => []
  | some lines =>
    lines.foldl (fun events line =>
      match line with
      | some o => if o.isObj then events ++ [o] else events
      | none => events) []

/-- The valid JSON-object lines of a line list, in file order. -/
def objectLines (lines : List LineParse) : List Json :=
  lines.filterMap (fun line =>
    match line with
    | some o => if o.isObj then some o else none
    | none => none)

/-- Whether a JSON value is a string. -/
def Json.isStr : Json → Bool
  | .str _ => true
  | _ => false

mutual

/-- Python `repr` of a parsed-JSON value, as it appears inside
`str()` of a container.  String escaping inside quotes is not modelled
(no claim exercises strings containing quotes or control characters). -/
def pyRepr : Json → String
  | .null => "None"
  | .bool true => "True"
  | .bool false => "False"
  | .num n => toString n
  | .str s => "\x27" ++ s ++ "\x27"
  | .arr elems => "[" ++ pyReprList elems ++ "]"
  | .obj fields => "\x7b" ++ pyReprFields fields ++ "\x7d"

def pyReprList : List Json → String
  | [] => ""
  | [x] => pyRepr x
  | x :: xs => pyRepr x ++ ", " ++ pyReprList xs

def pyReprFields : List (String × Json) → String
  | [] => ""
  | [(k, v)] => "\x27" ++ k ++ "\x27: " ++ pyRepr v
  | (k, v) :: xs => "\x27" ++ k ++ "\x27: " ++ pyRepr v ++ ", " ++ pyReprFields xs

end

/-- Python `str(x)` as used by f-string interpolation: identity on
strings, `repr` otherwise. -/
def pyStr : Json → String
  | .str s => s
  | j => pyRepr j

theorem read_log_foldl_append (lines : List LineParse) (acc : List Json) :
    (lines.foldl (fun events line =>
      match line with
      | some o => if o.isObj then events ++ [o] else events
      | none => events) acc) = acc ++ objectLines lines := by
  induction lines generalizing acc with
  | nil => simp [objectLines]
  | cons hd tl ih =>
    cases hd with
    | none => simp [objectLines, ih]
    | some o =>
      by_cases h : o.isObj
      · simp [objectLines, h, ih]
      · simp [objectLines, h, ih]

/-! ## Event Watcher (`_gamestate_loop`, src/cli.py:280-330) -/

/-- `evt.get("event_id") or evt.get("event")` (src/cli.py:285,294):
the `event_id` value when it is truthy, otherwise the `event` value
(Python `or` returns its second operand whenever the first is falsy). -/
def evtId (evt : Json) : Json :=
  let a := evt.getd "event_id"
  if a.truthy then a else evt.getd "event"

/-- `set.add` on the announced-ID set, modelled as a duplicate-free list. -/
def insertId (announced : List Json) (id : Json) : List Json :=
  if id ∈ announced then announced else announced ++ [id]

/-- The seeding loop (src/cli.py:282-289): walk the log once, inserting
each truthy identity key into the announced set, emitting nothing. -/
def seedGo : List Json → List Json → List Json
  | announced, [] => announced
  | announced, evt :: rest =>
    let id := evtId evt
    if id.truthy then seedGo (insertId announced id) rest
    else seedGo announced rest

/-- Seed the announced set from an existing log
("Seed announced set from existing log to avoid replaying old events"). -/
def seedAnnounced (log : List Json) : List Json :=
  seedGo [] log

/-- The per-cycle scan loop (src/cli.py:292-297): for each record in
file order, if its identity key is truthy and unseen, mark it and
collect the record into `new_events`. -/
def pollScanGo : List Json → List Json → List Json → List Json × List Json
  | announced, newEvents, [] => (announced, newEvents)
  | announced, newEvents, evt :: rest =>
    let id := evtId evt
    if id.truthy ∧ id ∉ announced then
      pollScanGo (announced ++ [id]) (newEvents ++ [evt]) rest
    else
      pollScanGo announced newEvents rest

/-- One poll cycle's scan: returns the updated announced set and the
batch of newly seen events in file order. -/
def pollScan (announced : List Json) (log : List Json) :
    List Json × List Json :=
  pollScanGo announced [] log

/-! ## Batch classification (src/cli.py:299-321) -/

/-- `next((e for e in new_events if e.get("winner")), None)`. -/
def findWinnerEvent (newEvents : List Json) : Option Json :=
  newEvents.find? (fun e => (e.getd "winner").truthy)

/-- `w = winner_event.get("winner", ⟨empty dict⟩) or ⟨empty dict⟩`. -/
def winnerObj (winnerEvent : Json) : Json :=
  let w := winnerEvent.getD "winner" (.obj [])
  if w.truthy then w else .obj []

/-- The victory f-string (src/cli.py:308). -/
def victoryInstruction (wname reason : String) : String :=
  "Declare victory: " ++ wname ++ " wins. Reason: " ++ reason ++
    ". Include the winner name verbatim and clearly."

/-- The single-elimination f-string (src/cli.py:314). -/
def singleInstruction (event : String) : String :=
  "Announce clearly the elimination: " ++ event ++
    ". Include the team name verbatim."

/-- The batch-elimination f-string (src/cli.py:320). -/
def batchInstruction (joined : String) : String :=
  "Announce clearly these eliminations together: " ++ joined ++
    ". Include each team name verbatim."

/-- `[e.get("event", "") for e in new_events if e.get("event")]`:
the `event` values of the batch whose value is truthy, in order. -/
def truthyEventNames (newEvents : List Json) : List Json :=
  newEvents.filterMap (fun e =>
    if (e.getd "event").truthy then some (e.getD "event" (.str "")) else none)

/-- `"; ".flatten(names)` accepts only strings; `none` models the
`TypeError` raised on any non-string element. -/
def asStrings : List Json → Option (List String)
  | [] => some []
  | .str s :: rest => (asStrings rest).map (s :: ·)
  | _ => none

/-- The classification of one non-empty batch into the instruction text
passed to `leviathan_reply` (src/cli.py:302-321).  `.error ()` models an
exception escaping this block (an `AttributeError` from `.get` on a
truthy non-dict `winner`, or a `TypeError` from joining non-strings);
such an exception is caught by the enclosing `except` and aborts the
announcement for this cycle only. -/
def classify (newEvents : List Json) : Except Unit String :=
  match findWinnerEvent newEvents with
  | some winnerEvent =>
    match winnerObj winnerEvent with
    | .obj fs =>
      let w := Json.obj fs
      let n := w.getd "name"
      let wname := if n.truthy then n
                   else winnerEvent.getD "event" (.str "Unknown victor")
      let r := w.getd "reason"
      let reason := if r.truthy then r else Json.str ""
      .ok (victoryInstruction (pyStr wname) (pyStr reason))
    | _ => .error ()
  | none =>
    match newEvents with
    | [e] => .ok (singleInstruction (pyStr (e.getd "event")))
    | _ =>
      match asStrings (truthyEventNames newEvents) with
      | some names => .ok (batchInstruction (String.intercalate "; " names))
      | none => .error ()

/-- Result of one iteration of the watcher's `while True` body. -/
structure CycleResult where
  announced : List Json
  batch : List Json
  spoke : Bool
  deriving Repr

/-- One full poll cycle (src/cli.py:290-330).  `replyOk` models whether
`leviathan_reply` returns normally (a failure is caught by the outer
`except` at line 328), `speakOk` whether `_speak_with_overlay` returns
normally (a failure is caught by the inner `except` at line 326).  In
every case the announced set is the one produced by the scan. -/
def pollCycle (announced : List Json) (log : List Json)
    (replyOk speakOk : Bool) : CycleResult :=
  let scan := pollScan announced log
  if scan.2.isEmpty then ⟨scan.1, scan.2, false⟩
  else
    match classify scan.2 with
    | .error _ => ⟨scan.1, scan.2, false⟩
    | .ok _ =>
      if replyOk && speakOk then ⟨scan.1, scan.2, true⟩
      else ⟨scan.1, scan.2, false⟩

/-- A run of successive poll cycles over the log contents observed at
each cycle, collecting each cycle's batch. -/
def watcherRun (announced : List Json) :
    List (List Json) → List Json × List (List Json)
  | [] => (announced, [])
  | log :: logs =>
    let scan := pollScan announced log
    let rest := watcherRun scan.1 logs
    (rest.1, scan.2 :: rest.2)

/-! ## State Store files and the Local State Server (src/overlay/server.py) -/

/-- A JSON document file as a handler reads it: missing, present but
unparseable (`json.loads` raises), or parsed to a value. -/
inductive FileContent where
  | absent
  | malformed
  | parsed (j : Json)
  deriving DecidableEq, Repr

/-- Python `dict.update`: keys of `base` keep their position and take the
value from `ext` when present there; keys only in `ext` are appended in
`ext` order.  Field lists stand for dicts, so keys are unique. -/
def pyUpdate (base ext : List (String × Json)) : List (String × Json) :=
  base.map (fun kv =>
    match Json.lookup kv.1 ext with
    | some v => (kv.1, v)
    | none => kv) ++
  ext.filter (fun kv => (Json.lookup kv.1 base).isNone)

/-- The shared shape of the three GET handlers (src/overlay/server.py:
57-74, 76-93, 111-128): start from the default document, and
`data.update(loaded)` only when the file exists, parses, and parses to a
dict; any read/parse failure leaves the default. -/
def mergeIfObj (default : Json) (file : FileContent) : Json :=
  match default, file with
  | .obj dfs, .parsed (.obj fs) => .obj (pyUpdate dfs fs)
  | _, _ => default

/-- The default Overlay State document of `serve_state`
(src/overlay/server.py:58). -/
def defaultStateDoc : Json :=
  .obj [("mode", .str "clear"), ("text", .str ""),
        ("font_size", .num 30), ("ts", .num 0)]

/-- `GET /state` (`OverlayHandler.serve_state`): a 200 response whose
body is the default document merged with the state file when that file
holds a JSON object. -/
def serve_state (stateFile : FileContent) : Nat × Json :=
  (200, mergeIfObj defaultStateDoc stateFile)

/-- `GET /gamestate` (`OverlayHandler.serve_gamestate`): like
`serve_state` with the empty object as default. -/
def serve_gamestate (gamestateFile : FileContent) : Nat × Json :=
  (200, mergeIfObj (.obj []) gamestateFile)

/-- The files owned by the overlay server. -/
structure ServerFiles where
  state : FileContent
  context : FileContent
  gamestate : FileContent
  log : List LineParse
  deriving Repr

/-- Outcome of a POST handler: the HTTP status it sends and the files
afterwards. -/
structure PostResult where
  status : Nat
  files : ServerFiles
  deriving Repr

/-- `OverlayHandler.receive_context` (src/overlay/server.py:95-109):
`body` is the parse outcome of the request body (`none` = `json.loads`
raised).  A JSON object is written to the context file and answered 204;
anything else answers 400 with no mutation. -/
def receive_context (files : ServerFiles) (body : Option Json) : PostResult :=
  match body with
  | some (.obj fs) =>
    { status := 204, files := { files with context := .parsed (.obj fs) } }
  | _ => { status := 400, files := files }

/-- `OverlayHandler.receive_gamestate` (src/overlay/server.py:130-147):
a JSON object overwrites the gamestate file and is appended as one line
to the gamestate log, answered 204; anything else answers 400 with no
mutation. -/
def receive_gamestate (files : ServerFiles) (body : Option Json) : PostResult :=
  match body with
  | some (.obj fs) =>
    { status := 204,
      files := { files with
        gamestate := .parsed (.obj fs),
        log := files.log ++ [some (.obj fs)] } }
  | _ => { status := 400, files := files }

/-- Python `str.rstrip("/")`: strip every trailing slash. -/
def rstripSlashes (s : String) : String :=
  String.mk ((s.data.reverse.dropWhile (· = '/')).reverse)

/-- The characters `urlsplit` removes from the url before parsing
(urllib.parse `_UNSAFE_URL_BYTES_TO_REMOVE`: tab, CR, LF). -/
def stripUnsafe (s : List Char) : List Char :=
  s.filter (fun c => !(c == '\t' || c == '\r' || c == '\n'))

/-- A character of urllib.parse `scheme_chars`: ASCII letters, digits,
`+`, `-`, `.`. -/
def isSchemeChar (c : Char) : Bool :=
  c.isAlpha || c.isDigit || c == '+' || c == '-' || c == '.'

/-- The scheme split of `urlsplit`: when a colon exists, is preceded by
at least one character, the first character is an ASCII letter, and
everything before the colon is a scheme character, the (lowercased)
scheme and the colon are split off.  Returns the scheme and the rest. -/
def splitScheme (s : List Char) : String × List Char :=
  let before := s.takeWhile (· ≠ ':')
  if before.length < s.length ∧ 0 < before.length ∧
      (s.headD ' ').isAlpha ∧ before.all isSchemeChar then
    (String.mk (before.map Char.toLower), s.drop (before.length + 1))
  else ("", s)

/-- `_splitnetloc` (after a leading `//`): the netloc runs to the next
`/`, `?` or `#`; returns the netloc and the remainder. -/
def splitNetloc (s : List Char) : List Char × List Char :=
  let netloc := s.takeWhile (fun c => !(c == '/' || c == '?' || c == '#'))
  (netloc, s.drop netloc.length)

/-- The netloc bracket validation of `urlsplit`: a `[` without `]`, or a
`]` without `[`, raises `ValueError("Invalid IPv6 URL")`.  (Validation
of the content of a bracketed host, present in newer CPython versions,
is not modelled; no claim exercises bracketed hosts.) -/
def badNetloc (netloc : List Char) : Bool :=
  (netloc.contains '[' && !netloc.contains ']') ||
  (netloc.contains ']' && !netloc.contains '[')

/-- The schemes for which `urlparse` splits `;parameters`
(urllib.parse `uses_params`); the empty scheme is one of them. -/
def usesParams : List String :=
  ["", "ftp", "hdl", "prospero", "http", "imap", "https", "shttp", "rtsp",
   "rtspu", "sip", "sips", "mms", "sftp", "tel"]

/-- `_splitparams`, reached only when the path holds a `;`: when the
path holds a `/`, a `;` in the last segment cuts that segment there
(earlier segments keep their parameters); with no `/` the path is cut at
its first `;`. -/
def splitParams (s : List Char) : List Char :=
  if '/' ∈ s then
    let lastSeg := (s.reverse.takeWhile (· ≠ '/')).reverse
    if ';' ∈ lastSeg then
      s.take (s.length - lastSeg.length) ++ lastSeg.takeWhile (· ≠ ';')
    else s
  else
    s.takeWhile (· ≠ ';')

/-- `urlparse(path).path` (urllib.parse): remove tab/CR/LF, split a
leading scheme, split a `//netloc` (`none` models the `ValueError`
raised on unbalanced IPv6 brackets in the netloc), drop the fragment
after the first `#` and then the query after the first `?`, and finally
split `;parameters` off the last path segment when the scheme uses
parameters. -/
def urlparsePath (s : String) : Option String :=
  let sch := splitScheme (stripUnsafe s.data)
  let afterNetloc : Option (List Char) :=
    match sch.2 with
    | '/' :: '/' :: rest =>
      let nl := splitNetloc rest
      if badNetloc nl.1 then none else some nl.2
    | other => some other
  match afterNetloc with
  | none => none
  | some u =>
    let pathPart := (u.takeWhile (· ≠ '#')).takeWhile (· ≠ '?')
    if sch.1 ∈ usesParams ∧ ';' ∈ pathPart then
      some (String.mk (splitParams pathPart))
    else some (String.mk pathPart)

/-- `OverlayHandler.do_POST` (src/overlay/server.py:47-55).  `none`
models `urlparse` raising (the exception escapes the handler and no
response is sent on the connection); otherwise the list of
`send_response` statuses issued on the connection, in order, and the
files afterwards.  The `/context` branch does not return, so control
falls through to the trailing `send_response(404)`; the `/gamestate`
branch returns early. -/
def do_POST (files : ServerFiles) (path : String) (body : Option Json) :
    Option (List Nat × ServerFiles) :=
  match urlparsePath path with
  | none => none
  | some pp =>
    let p := rstripSlashes pp
    if p = "/context" then
      let r := receive_context files body
      some ([r.status, 404], r.files)
    else if p = "/gamestate" then
      let r := receive_gamestate files body
      some ([r.status], r.files)
    else
      some ([404], files)

/-! ## Overlay state writes and `_speak_with_overlay` (src/cli.py, src/overlay/state.py) -/

/-- `write_state` (src/overlay/state.py:11-29): the document written for
one overlay update; `ts` is the `time.time()` stamp, passed in as an
opaque integer. -/
def write_state (mode text : String) (fontSize ts : Int) : Json :=
  .obj [("mode", .str mode), ("text", .str text),
        ("font_size", .num fontSize), ("ts", .num ts)]

/-- `clear_state` (src/overlay/state.py:32-33): `write_state` with
`mode="clear"`, empty text and the default font size 30. -/
def clear_state (ts : Int) : Json :=
  write_state "clear" "" 30 ts

/-- Result of one `_speak_with_overlay` call. -/
structure AnnounceResult where
  overlay : FileContent      -- overlay state file after the call
  raised : Bool              -- an exception propagated to the caller
  played : Bool              -- audio playback ran to completion
  delayBeforeClear : Option Int  -- seconds slept in `_clear_overlay`, if reached
  deriving Repr

/-- `_speak_with_overlay` (src/cli.py:125-130) under the lock, for a
caller whose overlay path is a `.json` path (the default): write the
speak bubble, play audio synchronously (`speakFails` = `_speak_line`
raises after logging, src/cli.py:113-122), then `_clear_overlay`
(src/cli.py:202-211) sleeps the 1-second grace delay and writes the
clear document.  File writes themselves are modelled as succeeding;
`ts1`, `ts2` are the two write timestamps. -/
def speak_with_overlay (line : String) (fontSize ts1 ts2 : Int)
    (speakFails : Bool) : AnnounceResult :=
  let afterSpeak := FileContent.parsed (write_state "speak" line fontSize ts1)
  if speakFails then
    -- the exception leaves the `with` block: the lock is released,
    -- `_clear_overlay` is never reached
    { overlay := afterSpeak, raised := true, played := false,
      delayBeforeClear := none }
  else
    { overlay := FileContent.parsed (clear_state ts2), raised := false,
      played := true, delayBeforeClear := some 1 }

/-! ## The `SPEECH_LOCK` discipline (src/cli.py:20,125-130) -/

/-- Program point of one potential `announce` caller (the manual
`--say` path, the push-to-talk loop, the Event Watcher) with respect to
`_speak_with_overlay`. -/
inductive Phase where
  | outside    -- not inside `_speak_with_overlay`
  | waiting    -- entered the call, blocked on `SPEECH_LOCK`
  | rendering  -- holds the lock: writing the speak-mode overlay state
  | playing    -- holds the lock: synchronous audio playback
  | clearing   -- holds the lock: grace delay and overlay clear
  deriving DecidableEq

/-- Whether a phase is inside the speak-overlay-write / playback /
overlay-clear cycle (the body of the `with SPEECH_LOCK` block). -/
def Phase.inCycle : Phase → Bool
  | .rendering => true
  | .playing => true
  | .clearing => true
  | _ => false

/-- Global state: the `SPEECH_LOCK` holder and each thread's phase. -/
structure SysState where
  lock : Option Nat
  phase : Nat → Phase

/-- Interleaved small-step semantics of all `_speak_with_overlay`
callers.  Acquiring requires the lock to be free; leaving the `with`
block (normally after the clear, or via a playback exception) releases
it. -/
inductive Step : SysState → SysState → Prop where
  | call (s : SysState) (i : Nat) :
      s.phase i = .outside →
      Step s ⟨s.lock, Function.update s.phase i .waiting⟩
  | acquire (s : SysState) (i : Nat) :
      s.lock = none → s.phase i = .waiting →
      Step s ⟨some i, Function.update s.phase i .rendering⟩
  | startPlay (s : SysState) (i : Nat) :
      s.phase i = .rendering →
      Step s ⟨s.lock, Function.update s.phase i .playing⟩
  | playDone (s : SysState) (i : Nat) :
      s.phase i = .playing →
      Step s ⟨s.lock, Function.update s.phase i .clearing⟩
  | playFails (s : SysState) (i : Nat) :
      s.phase i = .playing →
      Step s ⟨none, Function.update s.phase i .outside⟩
  | clearDone (s : SysState) (i : Nat) :
      s.phase i = .clearing →
      Step s ⟨none, Function.update s.phase i .outside⟩

/-- Process start: the lock is free and nobody is announcing. -/
def initState : SysState :=
  ⟨none, fun _ => .outside⟩

/-- States the process can reach. -/
def Reachable (s : SysState) : Prop :=
  Relation.ReflTransGen Step initState s

/-- Whoever is inside the cycle holds the lock. -/
def LockInv (s : SysState) : Prop :=
  ∀ k, (s.phase k).inCycle = true → s.lock = some k

/-! ## Claim C1 -/

theorem insertId_subset (announced : List Json) (id : Json) :
    announced ⊆ insertId announced id := by
  intro x hx
  unfold insertId
  split
  · exact hx
  · simp [hx]

theorem mem_insertId (announced : List Json) (id : Json) :
    id ∈ insertId announced id := by
  unfold insertId
  split
  · assumption
  · simp

theorem seedGo_subset (log : List Json) :
    ∀ announced, announced ⊆ seedGo announced log := by
  induction log with
  | nil => intro announced x hx; exact hx
  | cons hd rest ih =>
    intro announced x hx
    simp only [seedGo]
    split
    · exact ih _ (insertId_subset _ _ hx)
    · exact ih _ hx

theorem mem_seedGo_of_mem (log : List Json) :
    ∀ announced, ∀ evt ∈ log, (evtId evt).truthy = true →
      evtId evt ∈ seedGo announced log := by
  induction log with
  | nil => simp
  | cons hd rest ih =>
    intro announced evt hevt htruthy
    rcases List.mem_cons.mp hevt with rfl | hmem
    · simp only [seedGo, htruthy, if_true]
      exact seedGo_subset rest _ (mem_insertId _ _)
    · simp only [seedGo]
      split
      · exact ih _ evt hmem htruthy
      · exact ih _ evt hmem htruthy

theorem pollScanGo_stable (log : List Json) :
    ∀ announced acc,
      (∀ evt ∈ log, (evtId evt).truthy = true → evtId evt ∈ announced) →
      pollScanGo announced acc log = (announced, acc) := by
  induction log with
  | nil => intro announced acc _; rfl
  | cons hd rest ih =>
    intro announced acc h
    simp only [pollScanGo]
    have hneg : ¬((evtId hd).truthy ∧ evtId hd ∉ announced) := by
      by_cases ht : (evtId hd).truthy = true
      · simp [ht, h hd (by simp) ht]
      · simp [ht]
    rw [if_neg hneg]
    exact ih announced acc (fun evt hm => h evt (by simp [hm]))

/-- Everything the scan marks is exactly what the seeding pass marks. -/
theorem pollScanGo_fst (log : List Json) :
    ∀ announced acc,
      (pollScanGo announced acc log).1 = seedGo announced log := by
  induction log with
  | nil => intro announced acc; rfl
  | cons hd rest ih =>
    intro announced acc
    simp only [pollScanGo, seedGo]
    by_cases ht : (evtId hd).truthy = true
    · by_cases hm : evtId hd ∈ announced
      · rw [if_neg (by simp [hm]), if_pos ht]
        have hins : insertId announced (evtId hd) = announced := by
          simp [insertId, hm]
        rw [hins]
        exact ih announced acc
      · rw [if_pos ⟨ht, hm⟩, if_pos ht]
        have hins : insertId announced (evtId hd) = announced ++ [evtId hd] := by
          simp [insertId, hm]
        rw [hins]
        exact ih _ _
    · rw [if_neg (by simp [ht]), if_neg ht]
      exact ih _ _

/-- Full characterization of one scan: the batch extends the announced
set by exactly its own identity keys, which are distinct, truthy, and
new with respect to the set at the start of the cycle. -/
theorem pollScanGo_spec (log : List Json) :
    ∀ announced acc, ∃ newPart,
      pollScanGo announced acc log
        = (announced ++ newPart.map evtId, acc ++ newPart) ∧
      (newPart.map evtId).Nodup ∧
      (∀ e ∈ newPart, (evtId e).truthy = true ∧ evtId e ∉ announced) := by
  induction log with
  | nil => intro announced acc; exact ⟨[], by simp [pollScanGo], by simp, by simp⟩
  | cons hd rest ih =>
    intro announced acc
    by_cases hcond : (evtId hd).truthy = true ∧ evtId hd ∉ announced
    · obtain ⟨newPart, heq, hnd, hprops⟩ := ih (announced ++ [evtId hd]) (acc ++ [hd])
      refine ⟨hd :: newPart, ?_, ?_, ?_⟩
      · simp only [pollScanGo]
        rw [if_pos hcond, heq]
        simp
      · simp only [List.map_cons, List.nodup_cons]
        refine ⟨?_, hnd⟩
        intro hmem
        obtain ⟨e, he, heq'⟩ := List.mem_map.mp hmem
        exact (hprops e he).2 (by simp [heq'])
      · intro e he
        rcases List.mem_cons.mp he with rfl | hmem
        · exact ⟨hcond.1, hcond.2⟩
        · exact ⟨(hprops e hmem).1,
            fun hmem' => (hprops e hmem).2 (by simp [hmem'])⟩
    · obtain ⟨newPart, heq, hnd, hprops⟩ := ih announced acc
      refine ⟨newPart, ?_, hnd, hprops⟩
      simp only [pollScanGo]
      rw [if_neg hcond]
      exact heq

/-- Over any run of poll cycles, the identity keys of the collected
batches are pairwise distinct and never in the initial announced set. -/
theorem watcherRun_ids (logs : List (List Json)) :
    ∀ announced,
      (((watcherRun announced logs).2.map (fun b => b.map evtId)).flatten).Nodup ∧
      ∀ id ∈ ((watcherRun announced logs).2.map (fun b => b.map evtId)).flatten,
        id ∉ announced := by
  induction logs with
  | nil => intro announced; simp [watcherRun]
  | cons log logs ih =>
    intro announced
    obtain ⟨newPart, heq, hnd, hprops⟩ := pollScanGo_spec log announced []
    have hscan : pollScan announced log
        = (announced ++ newPart.map evtId, newPart) := by
      simpa [pollScan] using heq
    obtain ⟨ihnd, ihdisj⟩ := ih (announced ++ newPart.map evtId)
    have hjoin :
        ((watcherRun announced (log :: logs)).2.map (fun b => b.map evtId)).flatten
          = newPart.map evtId ++
            ((watcherRun (announced ++ newPart.map evtId) logs).2.map
              (fun b => b.map evtId)).flatten := by
      simp [watcherRun, hscan]
    constructor
    · rw [hjoin]
      refine List.Nodup.append hnd ihnd ?_
      intro x hx hx'
      exact ihdisj x hx' (by simp [hx])
    · intro id hid
      rw [hjoin] at hid
      rcases List.mem_append.mp hid with hid | hid
      · obtain ⟨e, he, heq'⟩ := List.mem_map.mp hid
        rw [← heq']
        exact (hprops e he).2
      · intro hann
        exact ihdisj id hid (by simp [hann])

/-- Restarting with an unchanged log: a fresh seeding pass followed by a
scan of the same log collects nothing new. -/
theorem pollScan_after_seed (log : List Json) :
    pollScan (seedAnnounced log) log = (seedAnnounced log, []) := by
  apply pollScanGo_stable
  intro evt hm ht
  exact mem_seedGo_of_mem log [] evt hm ht

/-- Announcement failure leaves the announced set exactly as the scan
left it. -/
theorem pollCycle_announced (announced log : List Json) (r s : Bool) :
    (pollCycle announced log r s).announced = (pollScan announced log).1 := by
  unfold pollCycle
  by_cases h : (pollScan announced log).2.isEmpty
  · simp [h]
  · cases hc : classify (pollScan announced log).2 with
    | error e => simp [h, hc]
    | ok instr =>
      cases hrs : r && s <;> simp [h, hc, hrs]

/-- C1: the seeding pass marks exactly the identifiers a scan would mark
while emitting no batch; a restart with an unchanged log produces an
empty batch; over any sequence of poll cycles each distinct identifier
appears in at most one announced batch and never in one if it was
seeded; and a failure during reply generation or playback does not
change the announced set, so a failed identifier is never retried. -/
theorem C1_announced_at_most_once (log0 : List Json) (logs : List (List Json))
    (announced log : List Json) (r1 s1 r2 s2 : Bool) :
    (pollScan [] log0).1 = seedAnnounced log0 ∧
    pollScan (seedAnnounced log0) log0 = (seedAnnounced log0, []) ∧
    (((watcherRun (seedAnnounced log0) logs).2.map
        (fun b => b.map evtId)).flatten).Nodup ∧
    (∀ id ∈ ((watcherRun (seedAnnounced log0) logs).2.map
        (fun b => b.map evtId)).flatten, id ∉ seedAnnounced log0) ∧
    (pollCycle announced log r1 s1).announced = (pollScan announced log).1 ∧
    (pollCycle announced log r1 s1).announced
      = (pollCycle announced log r2 s2).announced := by
  refine ⟨pollScanGo_fst log0 [] [], pollScan_after_seed log0,
    (watcherRun_ids logs (seedAnnounced log0)).1,
    (watcherRun_ids logs (seedAnnounced log0)).2,
    pollCycle_announced announced log r1 s1, ?_⟩
  rw [pollCycle_announced, pollCycle_announced]

/-- Witness for C1 at a concrete seeded log, two later log states, and
both announcement outcomes. -/
theorem C1_announced_at_most_once_witness :
    (pollScan [] [Json.obj [("event", Json.str "A")]]).1
      = seedAnnounced [Json.obj [("event", Json.str "A")]] ∧
    pollScan (seedAnnounced [Json.obj [("event", Json.str "A")]])
        [Json.obj [("event", Json.str "A")]]
      = (seedAnnounced [Json.obj [("event", Json.str "A")]], []) ∧
    (((watcherRun (seedAnnounced [Json.obj [("event", Json.str "A")]])
        [[Json.obj [("event", Json.str "A")], Json.obj [("event", Json.str "B")]],
         [Json.obj [("event", Json.str "A")], Json.obj [("event", Json.str "B")],
          Json.obj [("event", Json.str "C")]]]).2.map
        (fun b => b.map evtId)).flatten).Nodup ∧
    (∀ id ∈ ((watcherRun (seedAnnounced [Json.obj [("event", Json.str "A")]])
        [[Json.obj [("event", Json.str "A")], Json.obj [("event", Json.str "B")]],
         [Json.obj [("event", Json.str "A")], Json.obj [("event", Json.str "B")],
          Json.obj [("event", Json.str "C")]]]).2.map
        (fun b => b.map evtId)).flatten,
      id ∉ seedAnnounced [Json.obj [("event", Json.str "A")]]) ∧
    (pollCycle [] [Json.obj [("event", Json.str "B")]] true false).announced
      = (pollScan [] [Json.obj [("event", Json.str "B")]]).1 ∧
    (pollCycle [] [Json.obj [("event", Json.str "B")]] true false).announced
      = (pollCycle [] [Json.obj [("event", Json.str "B")]] true true).announced :=
  C1_announced_at_most_once [Json.obj [("event", Json.str "A")]]
    [[Json.obj [("event", Json.str "A")], Json.obj [("event", Json.str "B")]],
     [Json.obj [("event", Json.str "A")], Json.obj [("event", Json.str "B")],
      Json.obj [("event", Json.str "C")]]]
    [] [Json.obj [("event", Json.str "B")]] true false true true

/-! ## Claims C3 and C4 -/

theorem find_first_decomp {α : Type} (p : α → Bool) (l : List α) (a : α)
    (h : l.find? p = some a) :
    p a = true ∧ ∃ pre post, l = pre ++ a :: post ∧ ∀ x ∈ pre, p x = false := by
  induction l with
  | nil => simp [List.find?] at h
  | cons hd tl ih =>
    by_cases hp : p hd
    · rw [List.find?_cons_of_pos _ hp] at h
      cases h
      exact ⟨hp, [], tl, rfl, by simp⟩
    · rw [List.find?_cons_of_neg _ (by simpa using hp)] at h
      obtain ⟨hpa, pre, post, hdec, hpre⟩ := ih h
      refine ⟨hpa, hd :: pre, post, by rw [hdec]; rfl, ?_⟩
      intro x hx
      rcases List.mem_cons.mp hx with rfl | hx
      · simpa using hp
      · exact hpre x hx

theorem winnerObj_of_truthy (we : Json)
    (h : (we.getd "winner").truthy = true) :
    winnerObj we = we.getd "winner" := by
  unfold Json.getd at h
  unfold winnerObj Json.getD Json.getd
  cases hw : we.get? "winner" with
  | none => rw [hw] at h; simp [Json.truthy] at h
  | some v =>
    rw [hw] at h
    simp only [hw, Option.getD_some] at h ⊢
    simp [h]

theorem getD_eq_getd_of_truthy (e : Json) (k : String) (d : Json)
    (h : (e.getd k).truthy = true) : e.getD k d = e.getd k := by
  unfold Json.getd at h
  unfold Json.getD Json.getd
  cases hw : e.get? k with
  | none => rw [hw] at h; simp [Json.truthy] at h
  | some v => rfl

theorem asStrings_of_all_str (xs : List Json)
    (h : ∀ j ∈ xs, j.isStr = true) :
    asStrings xs = some (xs.map pyStr) := by
  induction xs with
  | nil => rfl
  | cons hd tl ih =>
    have hhd := h hd (by simp)
    cases hd <;> simp [Json.isStr] at hhd
    simp only [asStrings, List.map_cons]
    rw [ih (fun j hj => h j (by simp [hj]))]
    rfl

/-- C3: for every non-empty batch of new events in one poll cycle, if
any record has a non-empty winner object then the Victory branch is
selected regardless of the order of records within the batch: the first
record with a truthy winner is taken, the announced name is winner.name
falling back to that record's event field (then "Unknown victor" when
absent), the reason is winner.reason falling back to the empty string,
and the instruction is the victory template over these values. -/
theorem C3_victory_precedence (newEvents : List Json) (e : Json)
    (he : e ∈ newEvents) (hwin : (e.getd "winner").truthy = true)
    (hobjs : ∀ x ∈ newEvents, (x.getd "winner").truthy = true →
      (x.getd "winner").isObj = true) :
    ∃ we, findWinnerEvent newEvents = some we ∧
      (we.getd "winner").truthy = true ∧
      (∃ pre post, newEvents = pre ++ we :: post ∧
        ∀ x ∈ pre, (x.getd "winner").truthy = false) ∧
      classify newEvents = Except.ok (victoryInstruction
        (pyStr (if ((we.getd "winner").getd "name").truthy
                then (we.getd "winner").getd "name"
                else we.getD "event" (Json.str "Unknown victor")))
        (pyStr (if ((we.getd "winner").getd "reason").truthy
                then (we.getd "winner").getd "reason"
                else Json.str ""))) := by
  have hsome : (newEvents.find? (fun x => (x.getd "winner").truthy)).isSome := by
    rw [List.find?_isSome]
    exact ⟨e, he, hwin⟩
  obtain ⟨we, hwe⟩ := Option.isSome_iff_exists.mp hsome
  have hwe' : findWinnerEvent newEvents = some we := hwe
  obtain ⟨hpwe, pre, post, hdec, hpre⟩ := find_first_decomp _ _ _ hwe
  have hwemem : we ∈ newEvents := by rw [hdec]; simp
  have hwobj : (we.getd "winner").isObj = true := hobjs we hwemem hpwe
  refine ⟨we, hwe', hpwe, ⟨pre, post, hdec, fun x hx => by
    simpa using hpre x hx⟩, ?_⟩
  unfold classify
  rw [hwe']
  dsimp only
  rw [winnerObj_of_truthy we hpwe]
  cases hw : we.getd "winner" with
  | obj fs => rfl
  | null => rw [hw] at hwobj; simp [Json.isObj] at hwobj
  | bool b => rw [hw] at hwobj; simp [Json.isObj] at hwobj
  | num n => rw [hw] at hwobj; simp [Json.isObj] at hwobj
  | str s => rw [hw] at hwobj; simp [Json.isObj] at hwobj
  | arr xs => rw [hw] at hwobj; simp [Json.isObj] at hwobj

/-- Witness for C3: a batch holding a plain elimination first and a
winner record second still selects the Victory branch. -/
theorem C3_victory_precedence_witness :
    ∃ we, findWinnerEvent
        [Json.obj [("event", Json.str "A")],
         Json.obj [("event", Json.str "B"),
                   ("winner", Json.obj [("name", Json.str "W"),
                                        ("reason", Json.str "R")])]]
        = some we ∧
      (we.getd "winner").truthy = true ∧
      (∃ pre post,
        [Json.obj [("event", Json.str "A")],
         Json.obj [("event", Json.str "B"),
                   ("winner", Json.obj [("name", Json.str "W"),
                                        ("reason", Json.str "R")])]]
          = pre ++ we :: post ∧
        ∀ x ∈ pre, (x.getd "winner").truthy = false) ∧
      classify
        [Json.obj [("event", Json.str "A")],
         Json.obj [("event", Json.str "B"),
                   ("winner", Json.obj [("name", Json.str "W"),
                                        ("reason", Json.str "R")])]]
        = Except.ok (victoryInstruction
          (pyStr (if ((we.getd "winner").getd "name").truthy
                  then (we.getd "winner").getd "name"
                  else we.getD "event" (Json.str "Unknown victor")))
          (pyStr (if ((we.getd "winner").getd "reason").truthy
                  then (we.getd "winner").getd "reason"
                  else Json.str ""))) :=
  C3_victory_precedence _
    (Json.obj [("event", Json.str "B"),
               ("winner", Json.obj [("name", Json.str "W"),
                                    ("reason", Json.str "R")])])
    (by decide) (by decide) (by decide)

/-- C4: for every batch of two or more new events none of which has a
truthy winner (and whose truthy event fields are strings, as joining
requires), the produced instruction is the batch-elimination template
whose joined part is the truthy event fields of the batch joined with
"; " in file order, and every such event name occurs among the joined
names verbatim. -/
theorem C4_batch_eliminations (newEvents : List Json)
    (hlen : 2 ≤ newEvents.length)
    (hnowin : ∀ x ∈ newEvents, (x.getd "winner").truthy = false)
    (hstr : ∀ x ∈ newEvents, (x.getd "event").truthy = true →
      (x.getd "event").isStr = true) :
    classify newEvents = Except.ok (batchInstruction
      (String.intercalate "; " ((truthyEventNames newEvents).map pyStr))) ∧
    ∀ x ∈ newEvents, (x.getd "event").truthy = true →
      pyStr (x.getd "event") ∈ (truthyEventNames newEvents).map pyStr := by
  have hfind : findWinnerEvent newEvents = none := by
    unfold findWinnerEvent
    rw [List.find?_eq_none]
    intro x hx
    simp [hnowin x hx]
  have hstrnames : ∀ j ∈ truthyEventNames newEvents, j.isStr = true := by
    intro j hj
    obtain ⟨x, hx, hxj⟩ := List.mem_filterMap.mp hj
    by_cases ht : (x.getd "event").truthy = true
    · rw [if_pos ht] at hxj
      cases hxj
      rw [getD_eq_getd_of_truthy _ _ _ ht]
      exact hstr x hx ht
    · rw [if_neg ht] at hxj
      cases hxj
  constructor
  · match newEvents, hlen with
    | a :: b :: rest, _ =>
      unfold classify
      rw [hfind]
      have har := asStrings_of_all_str _ hstrnames
      simp only [har]
  · intro x hx ht
    have hmem : x.getD "event" (Json.str "") ∈ truthyEventNames newEvents := by
      unfold truthyEventNames
      exact List.mem_filterMap.mpr ⟨x, hx, by rw [if_pos ht]⟩
    rw [getD_eq_getd_of_truthy _ _ _ ht] at hmem
    exact List.mem_map.mpr ⟨_, hmem, rfl⟩

/-- Witness for C4 at the specification example batch: the instruction
joins Red and Blue with "; " and keeps both names verbatim. -/
theorem C4_batch_eliminations_witness :
    classify [Json.obj [("event", Json.str "Red")],
              Json.obj [("event", Json.str "Blue")]]
      = Except.ok (batchInstruction "Red; Blue") :=
  ((C4_batch_eliminations
      [Json.obj [("event", Json.str "Red")],
       Json.obj [("event", Json.str "Blue")]]
      (by decide) (by decide) (by decide)).1).trans
    (congrArg Except.ok (congrArg batchInstruction (by decide)))

/-! ## Claim C7 -/

/-- C7: for every log file content, `read_gamestate_log` is total (never
raises): each line is parsed independently, every line that fails to
parse as a JSON object is silently skipped, and the result equals
exactly the sequence of valid JSON-object lines in file order; a missing
file yields the empty sequence. -/
theorem C7_read_log_tolerant (file : LogFile) :
    read_gamestate_log file =
      (match file with
       | none => []
       | some lines => objectLines lines) := by
  cases file with
  | none => rfl
  | some lines =>
    simpa [read_gamestate_log] using read_log_foldl_append lines []

/-! ## Claim C9 -/

/-- C9: for every GET /state request on a system whose Overlay State
file is absent or corrupt (unparseable, or parseable but not a JSON
object), the server responds 200 with exactly the default document
mode="clear", text="", font_size=30, ts=0, and does not raise. -/
theorem C9_state_default (stateFile : FileContent)
    (h : stateFile = .absent ∨ stateFile = .malformed ∨
         ∃ j, stateFile = .parsed j ∧ j.isObj = false) :
    serve_state stateFile = (200, defaultStateDoc) := by
  rcases h with rfl | rfl | ⟨j, rfl, hobj⟩
  · rfl
  · rfl
  · cases j <;> simp_all [serve_state, mergeIfObj, defaultStateDoc, Json.isObj]

/-- Witness for C9 at a fresh system with no state file. -/
theorem C9_state_default_witness :
    serve_state .absent = (200, defaultStateDoc) :=
  C9_state_default .absent (Or.inl rfl)

/-! ## Claim C2 -/

theorem pyUpdate_nil (fs : List (String × Json)) : pyUpdate [] fs = fs := by
  simp [pyUpdate, Json.lookup]

/-- C2 (amended): POSTing a JSON object B to /gamestate answers 204,
overwrites the Gamestate Document so that a subsequent GET /gamestate
returns exactly B (a ts field is present only when B itself carries
one), and appends exactly one line, equal to B, to the Durable Event
Log. -/
theorem C2_gamestate_roundtrip (files : ServerFiles)
    (fs : List (String × Json)) :
    (receive_gamestate files (some (.obj fs))).status = 204 ∧
    serve_gamestate (receive_gamestate files (some (.obj fs))).files.gamestate
      = (200, .obj fs) ∧
    (receive_gamestate files (some (.obj fs))).files.log
      = files.log ++ [some (.obj fs)] ∧
    read_gamestate_log (some (receive_gamestate files (some (.obj fs))).files.log)
      = read_gamestate_log (some files.log) ++ [.obj fs] := by
  refine ⟨rfl, ?_, rfl, ?_⟩
  · simp [receive_gamestate, serve_gamestate, mergeIfObj, pyUpdate_nil]
  · simp [receive_gamestate, C7_read_log_tolerant, objectLines, Json.isObj]

/-- C2 counterexample: posting the object of the round-trip example and
reading it back returns exactly that object, which carries no ts field,
refuting the claim that the returned document is the posted object plus
a ts field. -/
theorem C2_no_ts_added :
    serve_gamestate (receive_gamestate ⟨.absent, .absent, .absent, []⟩
        (some (Json.obj [("event", Json.str "Team A eliminated")]))).files.gamestate
      = (200, Json.obj [("event", Json.str "Team A eliminated")]) ∧
    (Json.obj [("event", Json.str "Team A eliminated")]).get? "ts" = none := by
  constructor
  · rfl
  · rfl

/-! ## Claim C6 -/

/-- C6 counterexample: when synchronous playback raises, the exception
propagates out of the call, but the overlay clear is skipped — the
Overlay State file is left holding the speak-mode document, whose mode
is not "clear". -/
theorem C6_clear_skipped_on_failure :
    (speak_with_overlay "line" 30 0 1 true).raised = true ∧
    (speak_with_overlay "line" 30 0 1 true).overlay
      = .parsed (write_state "speak" "line" 30 0) ∧
    (write_state "speak" "line" 30 0).getd "mode" ≠ Json.str "clear" := by
  refine ⟨rfl, rfl, by decide⟩

/-- C6 (amended): when playback raises, the failure propagates to the
caller and the overlay is left in the speak-mode document (the clear is
skipped); only on success does the call wait the one-second grace delay
and reset the Overlay State to mode="clear". -/
theorem C6_failure_propagates (line : String) (fontSize ts1 ts2 : Int)
    (speakFails : Bool) :
    (speakFails = true →
      (speak_with_overlay line fontSize ts1 ts2 speakFails).raised = true ∧
      (speak_with_overlay line fontSize ts1 ts2 speakFails).overlay
        = .parsed (write_state "speak" line fontSize ts1) ∧
      (write_state "speak" line fontSize ts1).getd "mode" = Json.str "speak") ∧
    (speakFails = false →
      (speak_with_overlay line fontSize ts1 ts2 speakFails).raised = false ∧
      (speak_with_overlay line fontSize ts1 ts2 speakFails).delayBeforeClear
        = some 1 ∧
      (speak_with_overlay line fontSize ts1 ts2 speakFails).overlay
        = .parsed (clear_state ts2) ∧
      (clear_state ts2).getd "mode" = Json.str "clear") := by
  constructor
  · rintro rfl
    exact ⟨rfl, rfl, by simp [write_state, Json.getd, Json.get?, Json.lookup]⟩
  · rintro rfl
    exact ⟨rfl, rfl, rfl,
      by simp [clear_state, write_state, Json.getd, Json.get?, Json.lookup]⟩

/-- Witness for C6 (amended) in its failing branch. -/
theorem C6_failure_propagates_witness :
    (speak_with_overlay "boom" 30 0 1 true).raised = true ∧
    (speak_with_overlay "boom" 30 0 1 true).overlay
      = .parsed (write_state "speak" "boom" 30 0) ∧
    (write_state "speak" "boom" 30 0).getd "mode" = Json.str "speak" :=
  (C6_failure_propagates "boom" 30 0 1 true).1 rfl

/-! ## Claim C8 -/

/-- C8 counterexample: a record whose event_id field is present but
empty is deduplicated under its event field, not under the present
event_id, refuting the claim that the identity key is the event_id
field whenever that field is present. -/
theorem C8_presence_not_key :
    (Json.obj [("event_id", Json.str ""), ("event", Json.str "X")]).get?
        "event_id" = some (Json.str "") ∧
    evtId (Json.obj [("event_id", Json.str ""), ("event", Json.str "X")])
      = Json.str "X" ∧
    pollScan [] [Json.obj [("event_id", Json.str ""), ("event", Json.str "X")]]
      = ([Json.str "X"],
         [Json.obj [("event_id", Json.str ""), ("event", Json.str "X")]]) := by
  refine ⟨rfl, rfl, rfl⟩

/-- C8 (amended): the identity key is the event_id value whenever that
value is truthy (non-empty), and otherwise the event value; a record
whose computed key is falsy is skipped by both the seeding pass and the
poll-cycle scan — it is never marked in the announced set and never
collected for announcement. -/
theorem C8_identity_key (evt : Json) (announced acc rest : List Json) :
    evtId evt = (if (evt.getd "event_id").truthy then evt.getd "event_id"
                 else evt.getd "event") ∧
    ((evtId evt).truthy = false →
      pollScanGo announced acc (evt :: rest) = pollScanGo announced acc rest ∧
      seedGo announced (evt :: rest) = seedGo announced rest) := by
  refine ⟨rfl, fun hfalsy => ⟨?_, ?_⟩⟩
  · simp [pollScanGo, hfalsy]
  · simp only [seedGo, hfalsy]
    simp

/-- Witness for C8 (amended) at a record with no identity key. -/
theorem C8_identity_key_witness :
    evtId (Json.obj [("foo", Json.str "x")])
      = (if ((Json.obj [("foo", Json.str "x")]).getd "event_id").truthy
         then (Json.obj [("foo", Json.str "x")]).getd "event_id"
         else (Json.obj [("foo", Json.str "x")]).getd "event") ∧
    (pollScanGo [] [] [Json.obj [("foo", Json.str "x")]] = pollScanGo [] [] [] ∧
     seedGo [] [Json.obj [("foo", Json.str "x")]] = seedGo [] []) :=
  ⟨(C8_identity_key (Json.obj [("foo", Json.str "x")]) [] [] []).1,
   (C8_identity_key (Json.obj [("foo", Json.str "x")]) [] [] []).2 (by decide)⟩

/-! ## Claim C10 -/

/-- C10: for every POST whose request target urlparse-normalizes to the
path /context (after stripping trailing slashes), the context handler
runs (204 with the posted object written on success, 400 with no
mutation on a malformed body) and then, because the branch does not
return, a 404 is additionally sent on the same connection; a target
normalizing to /gamestate returns early with its single handler
response; any other successfully parsed target gets only 404 with no
mutation. -/
theorem C10_post_fallthrough (files : ServerFiles) (body : Option Json)
    (path pp : String) (hparse : urlparsePath path = some pp) :
    (rstripSlashes pp = "/context" →
      do_POST files path body
        = some ([(receive_context files body).status, 404],
                (receive_context files body).files)) ∧
    (∀ fs, body = some (.obj fs) →
      (receive_context files body).status = 204 ∧
      (receive_context files body).files
        = { files with context := .parsed (.obj fs) }) ∧
    ((∀ fs, body ≠ some (.obj fs)) →
      receive_context files body = ⟨400, files⟩) ∧
    (rstripSlashes pp = "/gamestate" →
      do_POST files path body
        = some ([(receive_gamestate files body).status],
                (receive_gamestate files body).files)) ∧
    (rstripSlashes pp ≠ "/context" → rstripSlashes pp ≠ "/gamestate" →
      do_POST files path body = some ([404], files)) := by
  refine ⟨?_, ?_, ?_, ?_, ?_⟩
  · intro hc
    simp [do_POST, hparse, hc]
  · rintro fs rfl
    exact ⟨rfl, rfl⟩
  · intro hnone
    match body with
    | none => rfl
    | some .null => rfl
    | some (.bool b) => rfl
    | some (.num n) => rfl
    | some (.str s) => rfl
    | some (.arr xs) => rfl
    | some (.obj fs) => exact absurd rfl (hnone fs)
  · intro hg
    simp [do_POST, hparse, hg]
  · intro hc hg
    simp [do_POST, hparse, hc, hg]

/-- Witness for C10 at a request target carrying last-segment
parameters: urlparse strips them, so the target routes to the context
handler, which answers 400 on the malformed body and falls through to a
trailing 404 with no mutation. -/
theorem C10_post_fallthrough_witness :
    urlparsePath "/context;x" = some "/context" ∧
    do_POST ⟨.absent, .absent, .absent, []⟩ "/context;x" none
      = some ([400, 404], ⟨.absent, .absent, .absent, []⟩) := by
  have h := C10_post_fallthrough ⟨.absent, .absent, .absent, []⟩ none
    "/context;x" "/context" (by decide)
  have h400 : receive_context ⟨.absent, .absent, .absent, []⟩ none
      = ⟨400, ⟨.absent, .absent, .absent, []⟩⟩ :=
    h.2.2.1 (fun fs hfs => by cases hfs)
  refine ⟨by decide, ?_⟩
  have hctx := h.1 (by decide)
  rw [hctx, h400]

/-! ## Claim C5 -/

theorem lockInv_init : LockInv initState := by
  intro k h
  simp [initState, Phase.inCycle] at h

theorem lockInv_step {s s' : SysState} (hs : LockInv s) (h : Step s s') :
    LockInv s' := by
  cases h with
  | call i hi =>
    intro k hk
    simp only [Function.update_apply] at hk
    split at hk
    · simp [Phase.inCycle] at hk
    · exact hs k hk
  | acquire i hlock hi =>
    intro k hk
    simp only [Function.update_apply] at hk
    split at hk
    next heq => rw [heq]
    next hne =>
      rw [hs k hk] at hlock
      cases hlock
  | startPlay i hi =>
    intro k hk
    simp only [Function.update_apply] at hk
    split at hk
    next heq => rw [heq]; exact hs i (by rw [hi]; rfl)
    next hne => exact hs k hk
  | playDone i hi =>
    intro k hk
    simp only [Function.update_apply] at hk
    split at hk
    next heq => rw [heq]; exact hs i (by rw [hi]; rfl)
    next hne => exact hs k hk
  | playFails i hi =>
    intro k hk
    simp only [Function.update_apply] at hk
    split at hk
    · simp [Phase.inCycle] at hk
    next hne =>
      have hk' := hs k hk
      have hi' := hs i (by rw [hi]; rfl)
      rw [hk'] at hi'
      cases hi'
      exact absurd rfl hne
  | clearDone i hi =>
    intro k hk
    simp only [Function.update_apply] at hk
    split at hk
    · simp [Phase.inCycle] at hk
    next hne =>
      have hk' := hs k hk
      have hi' := hs i (by rw [hi]; rfl)
      rw [hk'] at hi'
      cases hi'
      exact absurd rfl hne

theorem lockInv_reachable {s : SysState} (h : Reachable s) : LockInv s := by
  induction h with
  | refl => exact lockInv_init
  | tail hsteps hstep ih => exact lockInv_step ih hstep

/-- C5: in every reachable interleaving of the announce callers, at most
one caller is inside its speak-overlay-write / audio-playback /
overlay-clear cycle at any time system-wide, whichever caller triggered
it; and while one caller is inside the cycle, a second caller that has
requested the lock stays waiting across every possible step, so overlay
text from two calls is never visible simultaneously and audio never
overlaps. -/
theorem C5_speech_lock_mutex (s : SysState) (hreach : Reachable s)
    (i j : Nat) (hij : i ≠ j) (hi : (s.phase i).inCycle = true) :
    (s.phase j).inCycle = false ∧
    (s.phase j = .waiting → ∀ s', Step s s' → s'.phase j = .waiting) := by
  have hinv := lockInv_reachable hreach
  have hlocki := hinv i hi
  constructor
  · by_contra hcyc
    have hj : (s.phase j).inCycle = true := by
      cases hcyc' : (s.phase j).inCycle
      · exact absurd hcyc' hcyc
      · rfl
    have hlockj := hinv j hj
    rw [hlocki] at hlockj
    cases hlockj
    exact hij rfl
  · intro hwait s' hstep
    cases hstep with
    | call m hm =>
      simp only [Function.update_apply]
      split
      next heq => rfl
      next hne => exact hwait
    | acquire m hlock hm =>
      rw [hlocki] at hlock
      cases hlock
    | startPlay m hm =>
      simp only [Function.update_apply]
      split
      next heq => rw [heq] at hwait; rw [hwait] at hm; cases hm
      next hne => exact hwait
    | playDone m hm =>
      simp only [Function.update_apply]
      split
      next heq => rw [heq] at hwait; rw [hwait] at hm; cases hm
      next hne => exact hwait
    | playFails m hm =>
      simp only [Function.update_apply]
      split
      next heq => rw [heq] at hwait; rw [hwait] at hm; cases hm
      next hne => exact hwait
    | clearDone m hm =>
      simp only [Function.update_apply]
      split
      next heq => rw [heq] at hwait; rw [hwait] at hm; cases hm
      next hne => exact hwait

/-- A concrete reachable state: caller 0 called announce and acquired
the lock; caller 1 then called announce and is blocked. -/
def busyState : SysState :=
  ⟨some 0, Function.update (Function.update (Function.update
    initState.phase 0 .waiting) 0 .rendering) 1 .waiting⟩

theorem busyState_reachable : Reachable busyState := by
  have h1 : Step initState
      ⟨initState.lock, Function.update initState.phase 0 .waiting⟩ :=
    Step.call initState 0 rfl
  have h2 : Step ⟨initState.lock, Function.update initState.phase 0 .waiting⟩
      ⟨some 0, Function.update (Function.update initState.phase 0 .waiting)
        0 .rendering⟩ :=
    Step.acquire _ 0 rfl (by simp [Function.update_apply])
  have h3 : Step ⟨some 0, Function.update
        (Function.update initState.phase 0 .waiting) 0 .rendering⟩
      busyState :=
    Step.call _ 1 (by simp [Function.update_apply, initState])
  exact Relation.ReflTransGen.tail
    (Relation.ReflTransGen.tail (Relation.ReflTransGen.single h1) h2) h3

/-- Witness for C5 at the concrete reachable state: caller 0 is inside
the cycle, caller 1 is not, and caller 1 stays waiting under any step. -/
theorem C5_speech_lock_mutex_witness :
    (busyState.phase 1).inCycle = false ∧
    (∀ s', Step busyState s' → s'.phase 1 = .waiting) :=
  ⟨(C5_speech_lock_mutex busyState busyState_reachable 0 1
      (by decide) (by decide)).1,
   (C5_speech_lock_mutex busyState busyState_reachable 0 1
      (by decide) (by decide)).2 (by decide)⟩

end Leviathan
